import Mathlib

/-!
Verification development for the Runna workout translator
(`runna_sync.py`, class `RunnaTranslatorStateMachine` and its helpers).

The translator is embedded shallowly: strings are lists of characters
(`Chars`), every Python helper becomes an executable Lean function of the
same name, and the mutable state-machine object becomes a record `SM`
threaded through pure transition functions.  Python's `re` searches are
replaced by hand-rolled leftmost-match scanners for the exact patterns the
source compiles.  The identity-based cooldown-step tracking
(`self.cooldown_steps`, a set of `id(...)` values) is modelled by a boolean
tag `cd` carried on each step: a step's tag is `true` exactly when the
source would have recorded the object's id, and a step rebuilt from a fresh
string (the repeat-group `run uphill` rewrite) gets a fresh identity, hence
tag `false`.

Modelling notes: character classes (`\d`, `\s`, `\w`) and `str.lower` are
interpreted over ASCII (plus the Latin-1 uppercase range for `lower`,
which covers every non-ASCII character appearing in the source);
`str.splitlines` is implemented over the newline characters Python splits
on; `f"{m/1000.0:.3f}"` in `meters_to_km_str` is computed exactly over the
integers, which agrees with the float formatting for all realistic meter
counts.
-/

abbrev Chars := List Char

/-- Python `str.strip()` whitespace, ASCII range. -/
def pyIsSpace (c : Char) : Bool :=
  c = ' ' || c = '\t' || c = '\n' || c = '\r' || c = '\x0b' || c = '\x0c'

/-- Regex `\w` (word character), ASCII interpretation. -/
def isWordChar (c : Char) : Bool :=
  ('a' ≤ c && c ≤ 'z') || ('A' ≤ c && c ≤ 'Z') || ('0' ≤ c && c ≤ '9') || c = '_'

/-- Python `str.lower`, covering ASCII and the Latin-1 uppercase letters
(the only cased characters that occur in the source's literals). -/
def pyLowerChar (c : Char) : Char :=
  if 'A' ≤ c && c ≤ 'Z' then Char.ofNat (c.toNat + 32)
  else if 'À' ≤ c && c ≤ 'Þ' && c ≠ '×' then Char.ofNat (c.toNat + 32)
  else if c = 'Ÿ' then 'ÿ'
  else c

def pyLower (s : Chars) : Chars := s.map pyLowerChar

def pyLstrip (s : Chars) : Chars := s.dropWhile pyIsSpace

def dropTrailingWhile (p : Char → Bool) (s : Chars) : Chars :=
  (s.reverse.dropWhile p).reverse

def pyRstrip (s : Chars) : Chars := dropTrailingWhile pyIsSpace s

def pyStrip (s : Chars) : Chars := pyRstrip (pyLstrip s)

/-- `p` is a prefix of `s` (exact characters). -/
def isPrefixC : Chars → Chars → Bool
  | [], _ => true
  | _ :: _, [] => false
  | p :: ps, s :: ss => p = s && isPrefixC ps ss

/-- `p` (given already lowercased) is a case-insensitive prefix of `s`. -/
def isPrefixCI : Chars → Chars → Bool
  | [], _ => true
  | _ :: _, [] => false
  | p :: ps, s :: ss => p = pyLowerChar s && isPrefixCI ps ss

/-- Python `needle in hay` substring test. -/
def containsC (hay needle : Chars) : Bool :=
  match hay with
  | [] => needle.isEmpty
  | _ :: t => isPrefixC needle hay || containsC t needle

def splitOnCharAux (sep : Char) (acc : Chars) : Chars → List Chars
  | [] => [acc.reverse]
  | c :: t =>
    if c = sep then acc.reverse :: splitOnCharAux sep [] t
    else splitOnCharAux sep (c :: acc) t

/-- Python `s.split(sep)` for a one-character separator. -/
def splitOnChar (sep : Char) (s : Chars) : List Chars := splitOnCharAux sep [] s

/-- The characters Python `str.splitlines` breaks on (besides `\r\n`). -/
def isLineBreakChar (c : Char) : Bool :=
  c = '\n' || c = '\r' || c = '\x0b' || c = '\x0c' || c = '\x1c' ||
  c = '\x1d' || c = '\x1e' || c = '\x85' || c = '\u2028' || c = '\u2029'

def pySplitlinesAux (acc : Chars) : Chars → List Chars
  | [] => [acc.reverse]
  | '\r' :: '\n' :: t =>
    acc.reverse :: (if t.isEmpty then [] else pySplitlinesAux [] t)
  | c :: t =>
    if isLineBreakChar c then
      acc.reverse :: (if t.isEmpty then [] else pySplitlinesAux [] t)
    else pySplitlinesAux (c :: acc) t

/-- Python `str.splitlines`: empty string gives no lines, a trailing line
break produces no trailing empty line. -/
def pySplitlines (s : Chars) : List Chars :=
  match s with
  | [] => []
  | _ => pySplitlinesAux [] s

/-- Python `int(...)` on a nonempty string of decimal digits. -/
def digitsToNat (d : Chars) : Nat :=
  d.foldl (fun a c => 10 * a + (c.toNat - '0'.toNat)) 0

def natChars (n : Nat) : Chars := (Nat.repr n).data


/-! ### Regex emulation

Leftmost-match scanners for the exact patterns compiled in the source:
`PACE_RE`, `RANGE_RE`, `KM_RE`, `M_DIST_RE`, `SEC_RE`, `MIN_RE`, `REPS_RE`,
`REPEAT_FOLLOWING_RE`, `SEP_LINE_RE`, and the two `\b(\d+)s\b` / `\b(\d+)m\b`
searches used for the jog-downhill duration. -/

/-- Try a matcher at every start position, leftmost success wins
(the semantics of `re.search`). -/
def searchWith (f : Chars → Option α) : Chars → Option α
  | [] => f []
  | s@(_ :: t) =>
    match f s with
    | some r => some r
    | none => searchWith f t

/-- Regex `\b` immediately after a word character: the rest must be empty or
start with a non-word character. -/
def wordBoundaryAfter (rest : Chars) : Bool :=
  match rest with
  | [] => true
  | c :: _ => !isWordChar c

/-- `KM_RE = (\d+(?:\.\d+)?)\s*km\b` (ignorecase), anchored at the current
position; returns group 1. -/
def matchKmAt (s : Chars) : Option Chars :=
  let d1 := s.takeWhile Char.isDigit
  if d1.isEmpty then none
  else
    let r1 := s.dropWhile Char.isDigit
    let fr :=
      match r1 with
      | '.' :: r =>
        let f := r.takeWhile Char.isDigit
        if f.isEmpty then (([] : Chars), r1) else ('.' :: f, r.dropWhile Char.isDigit)
      | _ => (([] : Chars), r1)
    match fr.2.dropWhile pyIsSpace with
    | k :: m :: rest =>
      if pyLowerChar k = 'k' && pyLowerChar m = 'm' && wordBoundaryAfter rest then
        some (d1 ++ fr.1)
      else none
    | _ => none

/-- `(\d+)\s*u\b` anchored at the current position (`u` is `m` for
`M_DIST_RE`/`MIN_RE`, `s` for `SEC_RE`; ignorecase); returns group 1. -/
def matchNumUnitAt (unit : Char) (s : Chars) : Option Chars :=
  let d := s.takeWhile Char.isDigit
  if d.isEmpty then none
  else
    match (s.dropWhile Char.isDigit).dropWhile pyIsSpace with
    | u :: rest => if pyLowerChar u = unit && wordBoundaryAfter rest then some d else none
    | [] => none

/-- `PACE_RE = (\d+:\d{2})/km` (case-sensitive), anchored; returns group 1. -/
def matchPaceAt (s : Chars) : Option Chars :=
  let d1 := s.takeWhile Char.isDigit
  if d1.isEmpty then none
  else
    match s.dropWhile Char.isDigit with
    | ':' :: a :: b :: '/' :: 'k' :: 'm' :: _ =>
      if a.isDigit && b.isDigit then some (d1 ++ ':' :: [a, b]) else none
    | _ => none

/-- `RANGE_RE = (\d+:\d{2})-(\d+:\d{2})/km` (case-sensitive), anchored;
returns both groups. -/
def matchRangeAt (s : Chars) : Option (Chars × Chars) :=
  let d1 := s.takeWhile Char.isDigit
  if d1.isEmpty then none
  else
    match s.dropWhile Char.isDigit with
    | ':' :: a :: b :: '-' :: r2 =>
      if a.isDigit && b.isDigit then
        let d2 := r2.takeWhile Char.isDigit
        if d2.isEmpty then none
        else
          match r2.dropWhile Char.isDigit with
          | ':' :: c :: e :: '/' :: 'k' :: 'm' :: _ =>
            if c.isDigit && e.isDigit then
              some (d1 ++ ':' :: [a, b], d2 ++ ':' :: [c, e])
            else none
          | _ => none
      else none
    | _ => none

/-- Regex `\b` right before a digit: the previous character (if any) must be
a non-word character. -/
def boundaryBeforeOk (prev : Option Char) : Bool :=
  match prev with
  | none => true
  | some p => !isWordChar p

/-- `(\d+)u\b` anchored, case-sensitive, no `\s*` (the jog-downhill pattern
has the unit glued to the digits). -/
def matchNumUnitAtCS (unit : Char) (s : Chars) : Option Chars :=
  let d := s.takeWhile Char.isDigit
  if d.isEmpty then none
  else
    match s.dropWhile Char.isDigit with
    | u :: rest => if u = unit && wordBoundaryAfter rest then some d else none
    | [] => none

/-- `re.search(r"\b(\d+)u\b", s)` (case-sensitive) returning `int(group(1))`;
used on the previous step's text for the jog-downhill duration. -/
def searchNumTok (unit : Char) : Option Char → Chars → Option Nat
  | _, [] => none
  | prev, s@(c :: t) =>
    match (if boundaryBeforeOk prev then
             match matchNumUnitAtCS unit s with
             | some d => some (digitsToNat d)
             | none => none
           else none) with
    | some n => some n
    | none => searchNumTok unit (some c) t

/-- `SEP_LINE_RE = ^\s*-{3,}\s*$` via `.match` (i.e. a full separator line). -/
def sepLineMatch (s : Chars) : Bool :=
  let r := s.dropWhile pyIsSpace
  let dashes := r.takeWhile (fun c => c = '-')
  decide (3 ≤ dashes.length) && ((r.dropWhile (fun c => c = '-')).dropWhile pyIsSpace).isEmpty

/-- `REPS_RE = ^\s*(\d+)\s*reps of\s*:?\s*$` (ignorecase); returns
`int(group(1))`. -/
def repsHeaderMatch (s : Chars) : Option Nat :=
  let r := s.dropWhile pyIsSpace
  let d := r.takeWhile Char.isDigit
  if d.isEmpty then none
  else
    let r1 := (r.dropWhile Char.isDigit).dropWhile pyIsSpace
    if isPrefixCI "reps of".data r1 then
      let r2 := (r1.drop ("reps of".data.length)).dropWhile pyIsSpace
      let r3 := match r2 with | ':' :: t => t | _ => r2
      if (r3.dropWhile pyIsSpace).isEmpty then some (digitsToNat d) else none
    else none

/-- `REPEAT_FOLLOWING_RE = ^\s*repeat the following\s+(\d+)x\s*:?\s*$`
(ignorecase); returns `int(group(1))`. -/
def repeatFollowingMatch (s : Chars) : Option Nat :=
  let r := s.dropWhile pyIsSpace
  if isPrefixCI "repeat the following".data r then
    let r1 := r.drop ("repeat the following".data.length)
    if (r1.takeWhile pyIsSpace).isEmpty then none
    else
      let r2 := r1.dropWhile pyIsSpace
      let d := r2.takeWhile Char.isDigit
      if d.isEmpty then none
      else
        match r2.dropWhile Char.isDigit with
        | x :: r3 =>
          if pyLowerChar x = 'x' then
            let r4 := r3.dropWhile pyIsSpace
            let r5 := match r4 with | ':' :: t => t | _ => r4
            if (r5.dropWhile pyIsSpace).isEmpty then some (digitsToNat d) else none
          else none
        | [] => none
  else none

/-! ### Line-classification helpers (source lines 168–256) -/

def FAST_BURSTS_HINT : Chars := "add 3x 15s fast bursts".data

/-- The mojibake bullet literal `"â€¢"` from `clean_line` (three characters). -/
def mojibakeBullet : Chars := ['â', '€', '¢']

/-- The mojibake phone-emoji noise marker `"ðŸ“²"` (four characters). -/
def mojibakeEmoji : Chars := ['ð', 'Ÿ', '“', '²']

/-- `meters_to_km_str`: `f"{meters/1000.0:.3f}"` with trailing zeros and a
trailing decimal point stripped, then `"km"` appended.  Computed exactly
over ℕ (the quotient has exactly three decimal places). -/
def meters_to_km_str (meters : Nat) : Chars :=
  let f := meters % 1000
  let f3 : Chars :=
    (if f < 10 then ['0', '0'] else if f < 100 then ['0'] else []) ++ natChars f
  let s := natChars (meters / 1000) ++ '.' :: f3
  let s := dropTrailingWhile (fun c => c = '0') s
  let s := dropTrailingWhile (fun c => c = '.') s
  s ++ "km".data

/-- `parse_distance`: first `KM_RE` (verbatim group + `"km"`), else
`M_DIST_RE` meters converted to kilometers. -/
def parse_distance (line : Chars) : Option Chars :=
  match searchWith matchKmAt line with
  | some g => some (g ++ "km".data)
  | none =>
    match searchWith (matchNumUnitAt 'm') line with
    | some d => some (meters_to_km_str (digitsToNat d))
    | none => none

/-- `parse_duration`: first `SEC_RE` (`f"{int(g)}s"`), else `MIN_RE`
(`f"{int(g)}m"`). -/
def parse_duration (line : Chars) : Option Chars :=
  match searchWith (matchNumUnitAt 's') line with
  | some d => some (natChars (digitsToNat d) ++ ['s'])
  | none =>
    match searchWith (matchNumUnitAt 'm') line with
    | some d => some (natChars (digitsToNat d) ++ ['m'])
    | none => none

/-- `is_noise`: the lowercased line contains one of the two
`NOISE_SUBSTRINGS`. -/
def is_noise (line : Chars) : Bool :=
  let ll := pyLower line
  containsC ll "view in the runna app".data || containsC ll mojibakeEmoji

/-- `is_hills_by_text` over the full description. -/
def is_hills_by_text (full_description : Chars) : Bool :=
  let t := pyLower full_description
  containsC t "hill".data || containsC t "uphill".data ||
  containsC t "downhill".data || containsC t "jog back down".data ||
  containsC t "jog downhill".data || containsC t "base of hill".data

/-- `conversational_zone(workout_name, context)`. -/
def conversational_zone (workout_name : Chars) (context : Chars) : Chars :=
  let wn := pyLower workout_name
  if context = "warmup".data || context = "cooldown".data then "Z1-Z3 Pace".data
  else if containsC wn "long run".data then "Z1-Z2 Pace".data
  else "Z1-Z3 Pace".data

def single_line_easy_zone : Chars := "Z2-Z3 Pace".data

/-- `split_on_commas`. -/
def split_on_commas (line : Chars) : List Chars :=
  let parts := ((splitOnChar ',' line).map pyStrip).filter (fun p => !p.isEmpty)
  if parts.isEmpty then [pyStrip line] else parts

/-! ### `clean_line` (source lines 177–192) -/

/-- Scan for `)` and return the remainder after it (`[^)]*\)`). -/
def findCloseParen : Chars → Option Chars
  | [] => none
  | ')' :: t => some t
  | _ :: t => findCloseParen t

/-- If `(no faster than[^)]*\)` (ignorecase) matches at the head of `s`,
return the remainder after the match. -/
def noFasterAt (s : Chars) : Option Chars :=
  if isPrefixCI "(no faster than".data s then
    findCloseParen (s.drop ("(no faster than".data.length))
  else none

/-- `re.sub(r"\(no faster than[^)]*\)", "", s)`: delete every
non-overlapping match, scanning left to right (fuelled recursion; each
match consumes at least 16 characters, so `s.length` fuel is exact). -/
def removeNoFasterGo : Nat → Chars → Chars
  | 0, s => s
  | _ + 1, [] => []
  | fuel + 1, c :: t =>
    match noFasterAt (c :: t) with
    | some rest => removeNoFasterGo fuel rest
    | none => c :: removeNoFasterGo fuel t

def removeNoFaster (s : Chars) : Chars := removeNoFasterGo s.length s

/-- `re.sub(r"\b<phrase>\b.*$", "", s)` (ignorecase) for a phrase that
starts and ends with a word character: delete from the leftmost
word-bounded occurrence of `phrase` to the end of the line. -/
def cutFromWBGo (phrase : Chars) : Option Char → Chars → Chars
  | _, [] => []
  | prev, c :: t =>
    if boundaryBeforeOk prev && isPrefixCI phrase (c :: t) &&
        wordBoundaryAfter ((c :: t).drop phrase.length) then []
    else c :: cutFromWBGo phrase (some c) t

def cutFromWB (phrase : Chars) (s : Chars) : Chars := cutFromWBGo phrase none s

def trulyEasyPhrase : Chars := "run at whatever pace feels truly easy".data

/-- The character just before index `i` is absent or a non-word character. -/
def nonWordBefore (s : Chars) (i : Nat) : Bool :=
  if i = 0 then true
  else
    match s.get? (i - 1) with
    | some c => !isWordChar c
    | none => true

/-- `re.sub(r"\brun at whatever pace feels truly easy!?$", "", s)`
(ignorecase): strip that exact suffix (with an optional `!`). -/
def removeTrulyEasy (s : Chars) : Chars :=
  let ph := trulyEasyPhrase
  let n1 := ph.length + 1
  if decide (n1 ≤ s.length) && isPrefixCI (ph ++ ['!']) (s.drop (s.length - n1)) &&
      nonWordBefore s (s.length - n1) then
    s.take (s.length - n1)
  else if decide (ph.length ≤ s.length) && isPrefixCI ph (s.drop (s.length - ph.length)) &&
      nonWordBefore s (s.length - ph.length) then
    s.take (s.length - ph.length)
  else s

/-- `clean_line` (source lines 177–192). -/
def clean_line (s : Chars) : Chars :=
  let s := pyStrip s
  let s := if isPrefixC mojibakeBullet s then pyStrip (s.drop 1) else s
  let s := pyStrip (removeNoFaster s)
  let s := pyStrip (cutFromWB "this is a limit".data s)
  let s := pyStrip (cutFromWB "not a target".data s)
  let s := pyStrip (removeTrulyEasy s)
  pyStrip (dropTrailingWhile (fun c => c = '.' || pyIsSpace c) s)

/-! ### Translator state machine (source lines 259–591) -/

inductive TState
  | NORMAL
  | REPEAT_OPEN
  | REPEAT_SEP_WAIT_OPEN
  | REPEAT_SEP_CAPTURE
deriving DecidableEq

/-- A rendered step line.  `cd = true` models "this step's object id is in
`self.cooldown_steps`" (only the step emitted by the cool-down rule). -/
structure Step where
  text : Chars
  cd : Bool
deriving DecidableEq

structure WGroup where
  title : Chars
  steps : List Step
deriving DecidableEq

/-- The mutable fields of `RunnaTranslatorStateMachine`. -/
structure SM where
  workoutName : Chars
  hillsMode : Bool
  groups : List WGroup
  current : WGroup
  isPartial : Bool
  state : TState
  repeatGroup : Option WGroup
  repeatFirstStepPending : Bool
  hillsFallbackAdded : Bool
deriving DecidableEq

def mainSetTitle : Chars := "Main Set".data

/-- `__init__`. -/
def mkState (workout_name full_description : Chars) : SM :=
  { workoutName := workout_name
    hillsMode := is_hills_by_text full_description
    groups := []
    current := ⟨mainSetTitle, []⟩
    isPartial := false
    state := TState.NORMAL
    repeatGroup := none
    repeatFirstStepPending := false
    hillsFallbackAdded := false }

/-- `_flush_current`. -/
def flush_current (σ : SM) : SM :=
  { σ with
    groups := if σ.current.steps.isEmpty then σ.groups else σ.groups ++ [σ.current]
    current := ⟨mainSetTitle, []⟩ }

/-- `_start_group`. -/
def start_group (title : Chars) (σ : SM) : SM :=
  let σ := flush_current σ
  { σ with current := ⟨title, []⟩ }

/-- `_start_repeat_group`. -/
def start_repeat_group (reps : Nat) (σ : SM) : SM :=
  let σ := flush_current σ
  { σ with
    repeatGroup := some ⟨"Main Set ".data ++ natChars reps ++ ['x'], []⟩
    repeatFirstStepPending := true }

/-- `_close_repeat_group`. -/
def close_repeat_group (σ : SM) : SM :=
  { σ with
    groups :=
      match σ.repeatGroup with
      | some rg => if rg.steps.isEmpty then σ.groups else σ.groups ++ [rg]
      | none => σ.groups
    repeatGroup := none
    repeatFirstStepPending := false }

/-- `_add_hills_fallback_if_needed`. -/
def add_hills_fallback_if_needed (σ : SM) : SM :=
  if σ.hillsMode && !σ.hillsFallbackAdded then
    { σ with
      current := ⟨σ.current.title, σ.current.steps ++ [⟨"- 2m Z1-Z2 Pace".data, false⟩]⟩
      hillsFallbackAdded := true }
  else σ

/-- `_add_step`.  The first step added to a hills repeat group is rewritten
with a `run uphill ` insertion; the rewritten Python string is a fresh
object, so its identity tag is `false`. -/
def add_step (st : Step) (into_repeat : Bool) (σ : SM) : SM :=
  match σ.repeatGroup, into_repeat with
  | some rg, true =>
    if σ.hillsMode && σ.repeatFirstStepPending then
      let st' : Step :=
        if isPrefixC "- ".data st.text then ⟨"- run uphill ".data ++ st.text.drop 2, false⟩
        else ⟨"run uphill ".data ++ st.text, false⟩
      { σ with
        repeatGroup := some ⟨rg.title, rg.steps ++ [st']⟩
        repeatFirstStepPending := false }
    else { σ with repeatGroup := some ⟨rg.title, rg.steps ++ [st]⟩ }
  | _, _ => { σ with current := ⟨σ.current.title, σ.current.steps ++ [st]⟩ }

/-- The steps of the group the jog-downhill rule inspects:
`self.repeat_group.steps if (into_repeat and self.repeat_group) else
self.current.steps`. -/
def targetSteps (into_repeat : Bool) (σ : SM) : List Step :=
  match σ.repeatGroup, into_repeat with
  | some rg, true => rg.steps
  | _, _ => σ.current.steps

/-- The jog-downhill duration (source lines 374–383): `120s`, unless the
last previously emitted step of the target group carries a `\b(\d+)s\b`
(checked first) or `\b(\d+)m\b` token, in which case its doubled value with
the same unit. -/
def jogDownhillDur (prevSteps : List Step) : Chars :=
  match prevSteps.getLast? with
  | none => "120s".data
  | some prev =>
    match searchNumTok 's' none prev.text with
    | some n => natChars (2 * n) ++ ['s']
    | none =>
      match searchNumTok 'm' none prev.text with
      | some n => natChars (2 * n) ++ ['m']
      | none => "120s".data

/-- `_process_fragment`, stage 4 (source lines 397–436): distance-driven
branches, the duration-only branch, and the "Unknown fragment" fall-through
that sets the partial flag (and injects the hills fallback step). -/
def pf_dist (line ll : Chars) (into_repeat : Bool) (σ : SM) : SM :=
  match parse_distance line with
  | some dist =>
    match searchWith matchRangeAt line with
    | some (lo, hi) =>
      add_step ⟨"- ".data ++ dist ++ " ".data ++ lo ++ "/km PACE (".data ++ lo ++
        "-".data ++ hi ++ "/km) Pace".data, false⟩ into_repeat σ
    | none =>
      match searchWith matchPaceAt line with
      | some pace =>
        add_step ⟨"- ".data ++ dist ++ " ".data ++ pace ++ "/km Pace".data, false⟩
          into_repeat σ
      | none =>
        if containsC ll "conversational".data then
          add_step ⟨"- ".data ++ dist ++ " ".data ++
            conversational_zone σ.workoutName "main".data, false⟩ into_repeat σ
        else if containsC ll "easy run".data ||
            (isPrefixC "easy run".data (pyLower σ.workoutName) &&
              containsC ll "easy".data) then
          add_step ⟨"- ".data ++ dist ++ " ".data ++ single_line_easy_zone, false⟩
            into_repeat σ
        else
          add_step ⟨"- ".data ++ dist ++ " Z1-Z2 Pace".data, false⟩ into_repeat σ
  | none =>
    match parse_duration line with
    | some dur => add_step ⟨"- ".data ++ dur ++ " Z1-Z2 Pace".data, false⟩ into_repeat σ
    | none => add_hills_fallback_if_needed { σ with isPartial := true }

/-- `_process_fragment`, stage 3 (source lines 387–395): the
`easy jog` / `easy run` with an extractable quantity rule. -/
def pf_easyq (line ll : Chars) (into_repeat : Bool) (σ : SM) : SM :=
  if (containsC ll "easy jog".data || containsC ll "easy run".data) &&
      ((parse_distance line).isSome || (parse_duration line).isSome) then
    match parse_distance line with
    | some dist => add_step ⟨"- ".data ++ dist ++ " Z1-Z2 Pace".data, false⟩ into_repeat σ
    | none =>
      add_step ⟨"- ".data ++ (parse_duration line).getD [] ++ " Z1-Z2 Pace".data, false⟩
        into_repeat σ
  else pf_dist line ll into_repeat σ

/-- `_process_fragment`, stage 2 (source lines 360–385): the hills-only
rules (hard uphill → HR, jog downhill with doubled duration). -/
def pf_hills (line ll : Chars) (into_repeat : Bool) (σ : SM) : SM :=
  if σ.hillsMode &&
      (containsC ll "running hard uphill".data ||
        (containsC ll "hard".data && containsC ll "uphill".data)) then
    let dur := (parse_duration line).getD "2m".data
    add_step ⟨"- ".data ++ dur ++ " Z3-Z5 HR".data, false⟩ into_repeat σ
  else if σ.hillsMode &&
      (containsC ll "easy jog back down".data || containsC ll "jog back down".data ||
        containsC ll "easy jog back".data || containsC ll "jog downhill".data ||
        containsC ll "downhill".data) then
    let jog_dur := jogDownhillDur (targetSteps into_repeat σ)
    add_step ⟨"- Press lap, Jog Downhill ".data ++ jog_dur ++ " Z1-Z2 Pace".data, false⟩
      into_repeat σ
  else pf_easyq line ll into_repeat σ

/-- `_process_fragment`, stage 1 (source lines 335–358): the fast-bursts
ignore rule, the group-changing warmup/cooldown rules, and the walking-rest
rule. -/
def pf_main (line ll : Chars) (allow_group_change into_repeat : Bool) (σ : SM) : SM :=
  if containsC ll FAST_BURSTS_HINT then σ
  else if allow_group_change && containsC ll "warm up".data then
    let σ := start_group "Warmup".data σ
    let dist := (parse_distance line).getD "2m".data
    add_step ⟨"- ".data ++ dist ++ " ramp ".data ++
      conversational_zone σ.workoutName "warmup".data, false⟩ false σ
  else if allow_group_change && containsC ll "cool down".data then
    let σ := start_group "Cooldown".data σ
    let dist := (parse_distance line).getD "2m".data
    add_step ⟨"- ".data ++ dist ++ " ramp Z3-Z1 Pace".data, true⟩ false σ
  else if containsC ll "walking rest".data then
    let dur := (parse_duration line).getD "90s".data
    add_step ⟨"- ".data ++ dur ++ " Z1 Pace".data, false⟩ into_repeat σ
  else pf_hills line ll into_repeat σ

/-- `_process_fragment` (source lines 328–436), assembled from its stages
(the stages translate the Python method's early-return chain). -/
def process_fragment (frag : Chars) (allow_group_change into_repeat : Bool) (σ : SM) : SM :=
  let line := clean_line frag
  if line.isEmpty || is_noise line || sepLineMatch line then σ
  else pf_main line (pyLower line) allow_group_change into_repeat σ

/-- One iteration of the body-line loop in `translate`
(source lines 457–511). -/
def process_line (ln : Chars) (σ : SM) : SM :=
  let raw := ln
  let l := clean_line ln
  if (pyStrip raw).isEmpty &&
      (σ.state = TState.REPEAT_OPEN || σ.state = TState.REPEAT_SEP_CAPTURE ||
       σ.state = TState.REPEAT_SEP_WAIT_OPEN) then
    { close_repeat_group σ with state := TState.NORMAL }
  else if l.isEmpty &&
      (σ.state = TState.REPEAT_OPEN || σ.state = TState.REPEAT_SEP_CAPTURE) then
    { close_repeat_group σ with state := TState.NORMAL }
  else if l.isEmpty || is_noise l then σ
  else if sepLineMatch l then
    if σ.state = TState.REPEAT_SEP_WAIT_OPEN then
      { σ with state := TState.REPEAT_SEP_CAPTURE }
    else if σ.state = TState.REPEAT_SEP_CAPTURE then
      { close_repeat_group σ with state := TState.NORMAL }
    else σ
  else
    match (if σ.state = TState.NORMAL then
             match repsHeaderMatch l with
             | some n => some n
             | none => repeatFollowingMatch l
           else none) with
    | some reps => { start_repeat_group reps σ with state := TState.REPEAT_SEP_WAIT_OPEN }
    | none =>
      let σ := if σ.state = TState.REPEAT_SEP_WAIT_OPEN then
                 { σ with state := TState.REPEAT_OPEN }
               else σ
      if σ.state = TState.REPEAT_OPEN || σ.state = TState.REPEAT_SEP_CAPTURE then
        (split_on_commas l).foldl (fun σ f => process_fragment f false true σ) σ
      else
        (split_on_commas l).foldl (fun σ f => process_fragment f true false σ) σ

def runLines (σ : SM) (lines : List Chars) : SM :=
  lines.foldl (fun σ ln => process_line ln σ) σ

/-- `if self.state in (REPEAT_OPEN, REPEAT_SEP_CAPTURE, REPEAT_SEP_WAIT_OPEN):
self._close_repeat_group()` at end of input (source lines 514–515). -/
def closeAtEof (σ : SM) : SM :=
  if σ.state = TState.REPEAT_OPEN || σ.state = TState.REPEAT_SEP_CAPTURE ||
      σ.state = TState.REPEAT_SEP_WAIT_OPEN then
    close_repeat_group σ
  else σ

/-- `_postprocess_trailing_cooldown` (source lines 566–587), acting on the
group list: relocate the last step of a trailing `Main Set` group into a new
`Cooldown` group when that step's identity was recorded by the cool-down
rule. -/
def postprocess_trailing_cooldown (gs : List WGroup) : List WGroup :=
  match gs.getLast? with
  | none => gs
  | some g =>
    if g.title ≠ mainSetTitle then gs
    else
      match g.steps.getLast? with
      | none => gs
      | some st =>
        if !st.cd then gs
        else
          gs.dropLast ++
            (if g.steps.dropLast.isEmpty then [] else [⟨g.title, g.steps.dropLast⟩]) ++
            [⟨"Cooldown".data, [st]⟩]

/-- `_postprocess_trailing_conversational_to_cooldown` (source lines
533–563): the textual variant, checking whether the lowercased last step
mentions `conversational`.  Defined by the source but never invoked by
`translate`. -/
def postprocess_trailing_conversational_to_cooldown (gs : List WGroup) : List WGroup :=
  match gs.getLast? with
  | none => gs
  | some g =>
    if g.title ≠ mainSetTitle then gs
    else
      match g.steps.getLast? with
      | none => gs
      | some st =>
        if !containsC (pyLower st.text) "conversational".data then gs
        else
          gs.dropLast ++
            (if g.steps.dropLast.isEmpty then [] else [⟨g.title, g.steps.dropLast⟩]) ++
            [⟨"Cooldown".data, [st]⟩]

/-- The machine state after the body-line loop, the end-of-input repeat
close and the final `_flush_current` — i.e. immediately before
post-processing. -/
def preState (name desc : Chars) : SM :=
  flush_current (closeAtEof (runLines (mkState name desc) (pySplitlines desc).tail))

/-- The group sequence immediately before `_postprocess_trailing_cooldown`. -/
def groupsBeforePost (name desc : Chars) : List WGroup :=
  (preState name desc).groups

/-- The group sequence `translate` renders. -/
def finalGroups (name desc : Chars) : List WGroup :=
  postprocess_trailing_cooldown (groupsBeforePost name desc)

def groupLines (g : WGroup) : List Chars := g.title :: g.steps.map Step.text

/-- The `out` list built at source lines 521–526: groups in order, a blank
line before every group but the first, title line then step lines. -/
def renderLines : List WGroup → List Chars
  | [] => []
  | g :: gs => groupLines g ++ gs.flatMap (fun g' => [] :: groupLines g')

/-- `"\n".join(out)`. -/
def joinNL : List Chars → Chars
  | [] => []
  | [l] => l
  | l :: ls => l ++ '\n' :: joinNL ls

def defaultOut : Chars := "Main Set\n- 60m Z1-Z2 Pace".data

/-- `translate` (source lines 438–531). -/
def translateCore (workout_name full_description : Chars) : Chars × Bool :=
  match pySplitlines full_description with
  | [] => (defaultOut, true)
  | first_line :: body_lines =>
    if body_lines.isEmpty then
      let dist := parse_distance first_line
      let ll := pyLower first_line
      match dist with
      | some d =>
        if containsC ll "easy".data || containsC ll "conversational".data then
          ("Main Set\n- ".data ++ d ++ " ".data ++ single_line_easy_zone, false)
        else if isPrefixC "easy run".data (pyLower workout_name) then
          ("Main Set\n- ".data ++ d ++ " ".data ++ single_line_easy_zone, false)
        else (defaultOut, true)
      | none => (defaultOut, true)
    else
      let gs := finalGroups workout_name full_description
      let outLines := renderLines gs
      if outLines.isEmpty then (defaultOut, true)
      else (pyRstrip (joinNL outLines), (preState workout_name full_description).isPartial)

/-- `translate_workout_to_intervals_text` (source lines 589–591). -/
def translate_workout_to_intervals_text (workout_name description : String) : String × Bool :=
  let r := translateCore workout_name.data description.data
  (String.mk r.1, r.2)

/-! ### Specification-side predicates used by the theorems -/

/-- A group title the translator can produce: `Warmup`, `Cooldown`,
`Main Set`, or `Main Set <N>x`. -/
def goodTitle (t : Chars) : Prop :=
  t = "Warmup".data ∨ t = "Cooldown".data ∨ t = mainSetTitle ∨
  ∃ n : Nat, t = "Main Set ".data ++ natChars n ++ ['x']

/-- The rendered output grammar of the claims: one or more groups, each a
recognised title line immediately followed by one or more `- `-prefixed
step lines, with exactly one blank line between consecutive groups (this is
precisely `joinNL ∘ renderLines` of a nonempty list of nonempty groups). -/
def renderedGrammar (out : Chars) : Prop :=
  ∃ gs : List WGroup, gs ≠ [] ∧
    (∀ g ∈ gs, goodTitle g.title ∧ g.steps ≠ [] ∧
      ∀ st ∈ g.steps, isPrefixC "- ".data st.text = true) ∧
    out = joinNL (renderLines gs)

/-- The last character exists and is not whitespace. -/
def endsNonSpaceB (t : Chars) : Bool :=
  match t.getLast? with
  | some c => !pyIsSpace c
  | none => false

/-- Step-text shape invariant: starts with `- `, has content after the
marker, ends in a non-space character. -/
def goodText (t : Chars) : Bool :=
  isPrefixC "- ".data t && decide (2 < t.length) && endsNonSpaceB t

def goodSteps (l : List Step) : Prop := ∀ st ∈ l, goodText st.text = true

def unflaggedSteps (l : List Step) : Prop := ∀ st ∈ l, st.cd = false

def goodWGroup (g : WGroup) : Prop := goodTitle g.title ∧ g.steps ≠ [] ∧ goodSteps g.steps

/-- The identity-flagged cool-down step only ever lives in a group titled
`Cooldown`. -/
def flagOnlyCooldown (g : WGroup) : Prop :=
  g.title = "Cooldown".data ∨ unflaggedSteps g.steps

/-- The reachability invariant of the state machine. -/
def SMInv (σ : SM) : Prop :=
  (∀ g ∈ σ.groups, goodWGroup g ∧ flagOnlyCooldown g) ∧
  (goodTitle σ.current.title ∧ goodSteps σ.current.steps ∧ flagOnlyCooldown σ.current) ∧
  (∀ rg, σ.repeatGroup = some rg →
    goodTitle rg.title ∧ goodSteps rg.steps ∧ unflaggedSteps rg.steps)

/-- Stage-4 fall-through condition: no distance and no duration. -/
def fu_dist (line : Chars) : Bool :=
  (parse_distance line).isNone && (parse_duration line).isNone

def fu_easyq (line ll : Chars) : Bool :=
  if (containsC ll "easy jog".data || containsC ll "easy run".data) &&
      ((parse_distance line).isSome || (parse_duration line).isSome) then false
  else fu_dist line

def fu_hills (hills : Bool) (line ll : Chars) : Bool :=
  if hills &&
      (containsC ll "running hard uphill".data ||
        (containsC ll "hard".data && containsC ll "uphill".data)) then false
  else if hills &&
      (containsC ll "easy jog back down".data || containsC ll "jog back down".data ||
        containsC ll "easy jog back".data || containsC ll "jog downhill".data ||
        containsC ll "downhill".data) then false
  else fu_easyq line ll

def fu_main (hills : Bool) (line ll : Chars) (agc : Bool) : Bool :=
  if containsC ll FAST_BURSTS_HINT then false
  else if agc && containsC ll "warm up".data then false
  else if agc && containsC ll "cool down".data then false
  else if containsC ll "walking rest".data then false
  else fu_hills hills line ll

/-- The fall-through condition of `_process_fragment`: `true` exactly when
the fragment reaches the final "Unknown fragment" branch (the only place
that sets the partial flag).  Mirrors the branch structure of
`process_fragment` stage by stage; neither `into_repeat` nor the workout
name influences whether the fall-through branch is reached. -/
def fragUnrecognized (hills : Bool) (frag : Chars) (agc : Bool) : Bool :=
  let line := clean_line frag
  if line.isEmpty || is_noise line || sepLineMatch line then false
  else fu_main hills line (pyLower line) agc

/-! ### Theorems -/

set_option maxRecDepth 8000

/-- C4: for every title, translating an empty description (no lines) returns
exactly `Main Set\n- 60m Z1-Z2 Pace` with `partial = true`. -/
theorem empty_description_default (workout_name : String) :
    translate_workout_to_intervals_text workout_name "" =
      ("Main Set\n- 60m Z1-Z2 Pace", true) := rfl

/-- C1 (evaluation at the failing input): in hills mode, a repeat header
`11 reps of:` followed directly by the body line
`60s running hard uphill, 30s walking rest. Easy jog back down.` yields the
`Main Set 11x` group with a `run uphill … Z3-Z5 HR` first step, but the
second comma-fragment is consumed by the higher-precedence `walking rest`
rule, so no step containing `Jog Downhill` is emitted — contradicting the
repository's own test `test_repeat_without_separators`, which asserts
`"Jog Downhill" in out`. -/
theorem hills_repeat_walking_rest_swallows_jog_downhill :
    (translate_workout_to_intervals_text "Hills • 8km"
        "\nHills • 8km\n\n11 reps of:\n60s running hard uphill, 30s walking rest. Easy jog back down.\n" =
      ("Main Set\n- 8km Z1-Z2 Pace\n\nMain Set 11x\n- run uphill 60s Z3-Z5 HR\n- 30s Z1 Pace",
        false)) ∧
    containsC
      ("Main Set\n- 8km Z1-Z2 Pace\n\nMain Set 11x\n- run uphill 60s Z3-Z5 HR\n- 30s Z1 Pace").data
      "Jog Downhill".data = false ∧
    containsC
      ("Main Set\n- 8km Z1-Z2 Pace\n\nMain Set 11x\n- run uphill 60s Z3-Z5 HR\n- 30s Z1 Pace").data
      "Z3-Z5 HR".data = true := by
  refine ⟨by decide, by decide, by decide⟩

/-- C7: a body with a repeat header for 6 repetitions, a separator, two
distance-plus-single-pace lines and a closing separator yields a group
titled `Main Set 6x` with exactly two steps, each ending in `Pace`, and no
step of the output mentions `walking rest`. -/
theorem repeat_with_separators_two_pace_steps :
    ∃ g, g ∈ finalGroups "Rolling 400s".data
        "\nRolling 400s\n\nRepeat the following 6x:\n----------\n400m at 4:55/km\n400m at 5:40/km\n----------\n".data ∧
      g.title = "Main Set 6x".data ∧ g.steps.length = 2 ∧
      (∀ st ∈ g.steps, "Pace".data.isSuffixOf st.text = true) ∧
      (∀ g' ∈ finalGroups "Rolling 400s".data
          "\nRolling 400s\n\nRepeat the following 6x:\n----------\n400m at 4:55/km\n400m at 5:40/km\n----------\n".data,
        ∀ st ∈ g'.steps, containsC (pyLower st.text) "walking rest".data = false) := by
  refine ⟨⟨"Main Set 6x".data,
    [⟨"- 0.4km 4:55/km Pace".data, false⟩, ⟨"- 0.4km 5:40/km Pace".data, false⟩]⟩,
    by decide, rfl, rfl, by decide, by decide⟩

/-- C2 (counterexample): with workout title `Easy run` and the single-line
description `4km tempo` — a line yielding a distance but not containing
`easy` or `conversational` — the claim puts the input in its "every other
single-line case" and demands the fixed default with `partial = true`; the
code instead takes the `startswith("easy run") and dist` branch (which does
not require `easy` in the line) and returns a distance step with
`partial = false`. -/
theorem single_line_easy_run_title_counterexample :
    translate_workout_to_intervals_text "Easy run" "4km tempo" =
      ("Main Set\n- 4km Z2-Z3 Pace", false) ∧
    translate_workout_to_intervals_text "Easy run" "4km tempo" ≠
      ("Main Set\n- 60m Z1-Z2 Pace", true) := by
  refine ⟨by decide, by decide⟩

/-- C2 (amended): for every (title, description) whose description consists
of exactly one line `l`: if `l` yields a distance and contains `easy` or
`conversational`, or the workout title starts with `easy run`
(case-insensitive) and `l` yields a distance (no requirement that the line
contain `easy`), translate returns the single `Main Set` group step
`- <dist> Z2-Z3 Pace` with `partial = false`; in every other single-line
case it returns the fixed default with `partial = true`. -/
theorem single_line_fallback (workout_name description : String) (l : Chars)
    (h : pySplitlines description.data = [l]) :
    translateCore workout_name.data description.data =
      (match parse_distance l with
      | some d =>
        if containsC (pyLower l) "easy".data || containsC (pyLower l) "conversational".data then
          ("Main Set\n- ".data ++ d ++ " ".data ++ single_line_easy_zone, false)
        else if isPrefixC "easy run".data (pyLower workout_name.data) then
          ("Main Set\n- ".data ++ d ++ " ".data ++ single_line_easy_zone, false)
        else (defaultOut, true)
      | none => (defaultOut, true)) := by
  unfold translateCore
  rw [h]
  rfl

/-- Witness for C2's amended theorem at the counterexample input. -/
theorem single_line_fallback_witness :
    translateCore "Easy run".data "4km tempo".data = ("Main Set\n- 4km Z2-Z3 Pace".data, false) :=
  (single_line_fallback "Easy run" "4km tempo" "4km tempo".data (by decide)).trans (by decide)

/-- C3 (counterexample): a post-flush group state whose trailing `Main Set`
step mentions `conversational` is left completely unchanged by
`_postprocess_trailing_cooldown` — the only post-processing `translate`
invokes — while the never-invoked textual routine would have relocated it;
so the claimed conversational relocation does not happen in the rendered
output. -/
theorem trailing_conversational_not_relocated :
    postprocess_trailing_cooldown
        [⟨mainSetTitle, [⟨"- 3km at a conversational pace".data, false⟩]⟩] =
      [⟨mainSetTitle, [⟨"- 3km at a conversational pace".data, false⟩]⟩] ∧
    containsC (pyLower "- 3km at a conversational pace".data) "conversational".data = true ∧
    postprocess_trailing_conversational_to_cooldown
        [⟨mainSetTitle, [⟨"- 3km at a conversational pace".data, false⟩]⟩] =
      [⟨"Cooldown".data, [⟨"- 3km at a conversational pace".data, false⟩]⟩] := by
  refine ⟨by decide, by decide, by decide⟩

/-- C3 (amended): after the final flush, the post-processing `translate`
actually performs (`_postprocess_trailing_cooldown`) relocates the trailing
step of a final `Main Set` group into a new trailing `Cooldown` group
(dropping `Main Set` if it becomes empty) exactly when that step is the
identity-flagged deferred-cooldown step; the textual `conversational` check
belongs to the separate routine
`_postprocess_trailing_conversational_to_cooldown`, which relocates exactly
when the last step's lowercased text mentions `conversational` but is never
invoked by `translate`. -/
theorem postprocess_relocation_rules (pre : List WGroup) (steps : List Step) (st : Step) :
    (postprocess_trailing_cooldown (pre ++ [⟨mainSetTitle, steps ++ [st]⟩]) =
      if st.cd then
        pre ++ (if steps.isEmpty then [] else [⟨mainSetTitle, steps⟩]) ++
          [⟨"Cooldown".data, [st]⟩]
      else pre ++ [⟨mainSetTitle, steps ++ [st]⟩]) ∧
    (postprocess_trailing_conversational_to_cooldown (pre ++ [⟨mainSetTitle, steps ++ [st]⟩]) =
      if containsC (pyLower st.text) "conversational".data then
        pre ++ (if steps.isEmpty then [] else [⟨mainSetTitle, steps⟩]) ++
          [⟨"Cooldown".data, [st]⟩]
      else pre ++ [⟨mainSetTitle, steps ++ [st]⟩]) := by
  constructor
  · unfold postprocess_trailing_cooldown
    rw [List.getLast?_concat]
    simp only [ne_eq, not_true_eq_false, if_false, List.getLast?_concat,
      List.dropLast_concat, Bool.not_eq_true']
    cases hcd : st.cd <;> simp [hcd]
  · unfold postprocess_trailing_conversational_to_cooldown
    rw [List.getLast?_concat]
    simp only [ne_eq, not_true_eq_false, if_false, List.getLast?_concat,
      List.dropLast_concat, Bool.not_eq_true']
    cases hcv : containsC (pyLower st.text) "conversational".data <;> simp [hcv]

/-- C10: if the description has a title line and at least one body line but
processing produces no group at all, `translate` returns the fixed default
`Main Set` / `- 60m Z1-Z2 Pace` with `partial = true` — regardless of the
internal partial flag. -/
theorem body_without_steps_default (workout_name description : String) (first : Chars)
    (body : List Chars) (h : pySplitlines description.data = first :: body) (hb : body ≠ [])
    (hg : finalGroups workout_name.data description.data = []) :
    translate_workout_to_intervals_text workout_name description =
      ("Main Set\n- 60m Z1-Z2 Pace", true) := by
  have hbe : body.isEmpty = false := by
    cases body with
    | nil => exact absurd rfl hb
    | cons a t => rfl
  unfold translate_workout_to_intervals_text translateCore
  rw [h]
  simp only [hbe, Bool.false_eq_true, if_false, hg]
  rfl

/-- Witness for C10: a body consisting of a lone separator line produces no
steps; the returned flag is `true` even though the internal partial flag
was never set. -/
theorem body_without_steps_default_witness :
    translate_workout_to_intervals_text "X" "Run\n-----" =
      ("Main Set\n- 60m Z1-Z2 Pace", true) ∧
    (preState "X".data "Run\n-----".data).isPartial = false :=
  ⟨body_without_steps_default "X" "Run\n-----" "Run".data ["-----".data]
      (by decide) (by decide) (by decide),
    by decide⟩

/-- Helper: when no hills first-step rewrite is pending, `_add_step` appends
the given step unchanged to the target group. -/
theorem targetSteps_add_step (st : Step) (ir : Bool) (σ : SM)
    (hpend : ir = true → ∀ rg, σ.repeatGroup = some rg →
      (σ.hillsMode && σ.repeatFirstStepPending) = false) :
    targetSteps ir (add_step st ir σ) = targetSteps ir σ ++ [st] := by
  cases hrg : σ.repeatGroup with
  | none =>
    cases ir <;> simp [add_step, targetSteps, hrg]
  | some rg =>
    cases ir with
    | false => simp [add_step, targetSteps, hrg]
    | true =>
      have := hpend rfl rg hrg
      simp [add_step, targetSteps, hrg, this]

/-- C6: in hills mode, a fragment containing one of the jog-downhill
phrases and not captured by an earlier rule appends the step
`- Press lap, Jog Downhill <dur> Z1-Z2 Pace` to the target group, where
`<dur>` is `120s` when the group has no preceding emitted step or its last
step encodes no seconds/minutes token, and otherwise double the preceding
value with the same unit (the seconds token is checked first). -/
theorem jog_downhill_rule (σ : SM) (frag : Chars) (agc ir : Bool)
    (hh : σ.hillsMode = true)
    (hne : clean_line frag ≠ [])
    (hnoise : is_noise (clean_line frag) = false)
    (hsep : sepLineMatch (clean_line frag) = false)
    (hfb : containsC (pyLower (clean_line frag)) FAST_BURSTS_HINT = false)
    (hwu : (agc && containsC (pyLower (clean_line frag)) "warm up".data) = false)
    (hcd : (agc && containsC (pyLower (clean_line frag)) "cool down".data) = false)
    (hwr : containsC (pyLower (clean_line frag)) "walking rest".data = false)
    (hhu : (containsC (pyLower (clean_line frag)) "running hard uphill".data ||
      (containsC (pyLower (clean_line frag)) "hard".data &&
        containsC (pyLower (clean_line frag)) "uphill".data)) = false)
    (hdj : (containsC (pyLower (clean_line frag)) "easy jog back down".data ||
      containsC (pyLower (clean_line frag)) "jog back down".data ||
      containsC (pyLower (clean_line frag)) "easy jog back".data ||
      containsC (pyLower (clean_line frag)) "jog downhill".data ||
      containsC (pyLower (clean_line frag)) "downhill".data) = true)
    (hpend : ir = true → ∀ rg, σ.repeatGroup = some rg → σ.repeatFirstStepPending = false) :
    targetSteps ir (process_fragment frag agc ir σ) =
      targetSteps ir σ ++
        [⟨"- Press lap, Jog Downhill ".data ++
          (match (targetSteps ir σ).getLast? with
          | none => "120s".data
          | some prev =>
            match searchNumTok 's' none prev.text with
            | some n => natChars (2 * n) ++ ['s']
            | none =>
              match searchNumTok 'm' none prev.text with
              | some n => natChars (2 * n) ++ ['m']
              | none => "120s".data) ++ " Z1-Z2 Pace".data, false⟩] := by
  have h1 : (clean_line frag).isEmpty = false := by
    cases hc : clean_line frag with
    | nil => exact absurd hc hne
    | cons a t => rfl
  have hstep : process_fragment frag agc ir σ =
      add_step ⟨"- Press lap, Jog Downhill ".data ++
        jogDownhillDur (targetSteps ir σ) ++ " Z1-Z2 Pace".data, false⟩ ir σ := by
    unfold process_fragment
    simp only [h1, hnoise, hsep, Bool.or_self, Bool.false_or, if_false, Bool.false_eq_true]
    unfold pf_main
    simp only [hfb, hwu, hcd, hwr, if_false, Bool.false_eq_true]
    unfold pf_hills
    simp only [hh, hhu, hdj, Bool.true_and, Bool.and_false, Bool.false_eq_true,
      if_false, if_true]
  rw [hstep]
  rw [targetSteps_add_step _ _ _ (fun hir rg hrg => by rw [hh, hpend hir rg hrg]; rfl)]
  rfl

/-- Witness for C6: a fresh hills-mode machine, fragment
`Easy jog back down`, no preceding step — the duration defaults to `120s`. -/
theorem jog_downhill_rule_witness :
    targetSteps false
        (process_fragment "Easy jog back down".data true false
          (mkState "x".data "downhill".data)) =
      targetSteps false (mkState "x".data "downhill".data) ++
        [⟨"- Press lap, Jog Downhill 120s Z1-Z2 Pace".data, false⟩] := by
  have h := jog_downhill_rule (mkState "x".data "downhill".data)
    "Easy jog back down".data true false (by decide) (by decide) (by decide) (by decide)
    (by decide) (by decide) (by decide) (by decide) (by decide) (by decide)
    (fun hir _ _ => Bool.noConfusion hir)
  exact h.trans (by decide)

/-! ### The partial flag (C8) -/

/-- Helper: `_add_step` never touches the partial flag. -/
theorem isPartial_add_step (st : Step) (ir : Bool) (σ : SM) :
    (add_step st ir σ).isPartial = σ.isPartial := by
  unfold add_step
  cases σ.repeatGroup <;> cases ir <;> simp [apply_ite SM.isPartial]

/-- Helper: the hills fallback injection never touches the partial flag. -/
theorem isPartial_add_hills_fallback (σ : SM) :
    (add_hills_fallback_if_needed σ).isPartial = σ.isPartial := by
  unfold add_hills_fallback_if_needed
  split <;> rfl

/-- Helper: stage 4 sets the partial flag exactly on its fall-through. -/
theorem isPartial_pf_dist (line ll : Chars) (ir : Bool) (σ : SM) :
    (pf_dist line ll ir σ).isPartial = (σ.isPartial || fu_dist line) := by
  unfold pf_dist fu_dist
  cases hd : parse_distance line with
  | some d =>
    cases hr : searchWith matchRangeAt line with
    | some p =>
      obtain ⟨lo, hi⟩ := p
      simp [isPartial_add_step]
    | none =>
      cases hp : searchWith matchPaceAt line with
      | some pace => simp [isPartial_add_step]
      | none => split_ifs <;> simp [isPartial_add_step]
  | none =>
    cases hu : parse_duration line with
    | some dur => simp [hd, isPartial_add_step]
    | none => simp [hd, hu, isPartial_add_hills_fallback]

/-- Helper: stage 3 partial-flag equation. -/
theorem isPartial_pf_easyq (line ll : Chars) (ir : Bool) (σ : SM) :
    (pf_easyq line ll ir σ).isPartial = (σ.isPartial || fu_easyq line ll) := by
  unfold pf_easyq fu_easyq
  split
  · cases hd : parse_distance line <;> simp [isPartial_add_step]
  · simp [isPartial_pf_dist]

/-- Helper: stage 2 partial-flag equation. -/
theorem isPartial_pf_hills (line ll : Chars) (ir : Bool) (σ : SM) :
    (pf_hills line ll ir σ).isPartial = (σ.isPartial || fu_hills σ.hillsMode line ll) := by
  unfold pf_hills fu_hills
  split
  · simp [isPartial_add_step]
  · split
    · simp [isPartial_add_step]
    · simp [isPartial_pf_easyq]

/-- Helper: stage 1 partial-flag equation. -/
theorem isPartial_pf_main (line ll : Chars) (agc ir : Bool) (σ : SM) :
    (pf_main line ll agc ir σ).isPartial =
      (σ.isPartial || fu_main σ.hillsMode line ll agc) := by
  unfold pf_main fu_main
  split
  · simp
  · split
    · simp [isPartial_add_step, start_group, flush_current]
    · split
      · simp [isPartial_add_step, start_group, flush_current]
      · split
        · simp [isPartial_add_step]
        · simp [isPartial_pf_hills]

/-- Helper: a fragment ors the partial flag with its fall-through bit — it
never clears it, and only an unrecognized fragment sets it. -/
theorem process_fragment_isPartial (frag : Chars) (agc ir : Bool) (σ : SM) :
    (process_fragment frag agc ir σ).isPartial =
      (σ.isPartial || fragUnrecognized σ.hillsMode frag agc) := by
  unfold process_fragment fragUnrecognized
  dsimp only
  split
  · simp
  · simp [isPartial_pf_main]

/-- Helper: folding fragments keeps a set partial flag set. -/
theorem isPartial_foldl_mono (frags : List Chars) (agc ir : Bool) (σ : SM)
    (h : σ.isPartial = true) :
    (frags.foldl (fun σ f => process_fragment f agc ir σ) σ).isPartial = true := by
  induction frags generalizing σ with
  | nil => exact h
  | cons f t ih =>
    rw [List.foldl_cons]
    refine ih _ ?_
    rw [process_fragment_isPartial, h]
    rfl

/-- Helper: a body line keeps a set partial flag set. -/
theorem isPartial_process_line_mono (ln : Chars) (σ : SM) (h : σ.isPartial = true) :
    (process_line ln σ).isPartial = true := by
  unfold process_line
  dsimp only
  split
  · exact h
  · split
    · exact h
    · split
      · exact h
      · split
        · split
          · exact h
          · split
            · exact h
            · exact h
        · split
          · exact h
          · split
            · split <;> exact isPartial_foldl_mono _ _ _ _ h
            · split <;> exact isPartial_foldl_mono _ _ _ _ h

/-- C8: the partial flag is monotonic — it starts `false`; a fragment
either leaves it unchanged or sets it (exactly when the fragment is
unrecognized); a body line never clears it; flushing, closing a repeat and
the end-of-input close never touch it; and the flag `translate` returns is
`true` whenever the machine's flag was `true` after processing
(post-processing cannot reset it, since it only rearranges groups). -/
theorem partial_flag_monotonic :
    (∀ name desc : Chars, (mkState name desc).isPartial = false) ∧
    (∀ (σ : SM) (frag : Chars) (agc ir : Bool),
      (process_fragment frag agc ir σ).isPartial =
        (σ.isPartial || fragUnrecognized σ.hillsMode frag agc)) ∧
    (∀ (σ : SM) (ln : Chars), σ.isPartial = true → (process_line ln σ).isPartial = true) ∧
    (∀ σ : SM, (flush_current σ).isPartial = σ.isPartial ∧
      (close_repeat_group σ).isPartial = σ.isPartial ∧
      (closeAtEof σ).isPartial = σ.isPartial) ∧
    (∀ (name desc first : Chars) (body : List Chars),
      pySplitlines desc = first :: body → body ≠ [] →
      (preState name desc).isPartial = true → (translateCore name desc).2 = true) := by
  refine ⟨fun _ _ => rfl,
    fun σ frag agc ir => process_fragment_isPartial frag agc ir σ,
    fun σ ln h => isPartial_process_line_mono ln σ h,
    fun σ => ⟨rfl, rfl, by unfold closeAtEof; split <;> rfl⟩,
    ?_⟩
  intro name desc first body hsplit hb h
  have hbe : body.isEmpty = false := by
    cases body with
    | nil => exact absurd rfl hb
    | cons a t => rfl
  unfold translateCore
  rw [hsplit]
  simp only [hbe, Bool.false_eq_true, if_false]
  split
  · rfl
  · exact h

/-- Witness for C8 at a concrete machine state with the flag already set. -/
theorem partial_flag_monotonic_witness :
    (process_line "zzz".data { mkState "a".data "b".data with isPartial := true }).isPartial =
      true :=
  partial_flag_monotonic.2.2.1 _ _ rfl

/-! ### Shape invariants, post-processing (C9) and the output grammar (C5) -/

set_option linter.unreachableTactic false
set_option linter.unusedTactic false

theorem mem_of_getLast?C {α : Type _} (l : List α) (a : α) (h : l.getLast? = some a) :
    a ∈ l := by
  induction l with
  | nil => simp at h
  | cons x t ih =>
    cases t with
    | nil => simp_all
    | cons y r =>
      rw [List.getLast?_cons_cons] at h
      exact List.mem_cons_of_mem x (ih h)

theorem endsNonSpaceB_ne_nil (t : Chars) (h : endsNonSpaceB t = true) : t ≠ [] := by
  intro he
  subst he
  simp [endsNonSpaceB] at h

theorem endsNonSpaceB_append (a b : Chars) (hb : b ≠ []) :
    endsNonSpaceB (a ++ b) = endsNonSpaceB b := by
  unfold endsNonSpaceB
  rw [List.getLast?_append]
  cases hl : b.getLast? with
  | none => exact absurd (List.getLast?_eq_none_iff.mp hl) hb
  | some c => rfl

theorem endsNonSpaceB_cons (c : Char) (r : Chars) (hr : r ≠ []) :
    endsNonSpaceB (c :: r) = endsNonSpaceB r := by
  have : c :: r = [c] ++ r := rfl
  rw [this, endsNonSpaceB_append _ _ hr]

theorem pyRstrip_eq_self (s : Chars) (h : endsNonSpaceB s = true) : pyRstrip s = s := by
  unfold pyRstrip dropTrailingWhile
  unfold endsNonSpaceB at h
  rw [← List.head?_reverse] at h
  cases hrev : s.reverse with
  | nil =>
    rw [hrev] at h
    simp at h
  | cons c t =>
    rw [hrev] at h
    simp only [List.head?_cons] at h
    simp only [List.dropWhile_cons, Bool.not_eq_true'] at h ⊢
    rw [h]
    simp only [Bool.false_eq_true, if_false]
    rw [← hrev, List.reverse_reverse]

theorem isPrefixC_self_append (p r : Chars) : isPrefixC p (p ++ r) = true := by
  induction p with
  | nil => rfl
  | cons c t ih => simp [isPrefixC, ih]

theorem goodText_dash_append (r : Chars) (hr : endsNonSpaceB r = true) :
    goodText ("- ".data ++ r) = true := by
  have hne : r ≠ [] := endsNonSpaceB_ne_nil r hr
  unfold goodText
  have h1 := isPrefixC_self_append "- ".data r
  have h2 : 2 < ("- ".data ++ r).length := by
    have h0 : 0 < r.length := List.length_pos.mpr hne
    simp only [List.length_append, List.length_cons, List.length_nil]
    omega
  have h3 : endsNonSpaceB ("- ".data ++ r) = true := by
    rw [endsNonSpaceB_append _ _ hne]
    exact hr
  simp only [goodText, Bool.and_eq_true, decide_eq_true_eq]
  exact ⟨⟨h1, h2⟩, h3⟩

theorem goodText_starts (t : Chars) (h : goodText t = true) :
    isPrefixC "- ".data t = true := by
  unfold goodText at h
  exact (Bool.and_eq_true_iff.mp ((Bool.and_eq_true_iff.mp h).1)).1

theorem goodText_ends (t : Chars) (h : goodText t = true) : endsNonSpaceB t = true := by
  unfold goodText at h
  exact (Bool.and_eq_true_iff.mp h).2

theorem isPrefixC_exists (p s : Chars) (h : isPrefixC p s = true) : ∃ r, s = p ++ r := by
  induction p generalizing s with
  | nil => exact ⟨s, rfl⟩
  | cons c t ih =>
    cases s with
    | nil => simp [isPrefixC] at h
    | cons a r =>
      simp only [isPrefixC, Bool.and_eq_true, decide_eq_true_eq] at h
      obtain ⟨h1, h2⟩ := h
      subst h1
      obtain ⟨r2, rfl⟩ := ih r h2
      exact ⟨r2, rfl⟩

theorem goodText_split (t : Chars) (h : goodText t = true) :
    ∃ r, t = '-' :: ' ' :: r ∧ r ≠ [] ∧ endsNonSpaceB r = true := by
  obtain ⟨r, rfl⟩ := isPrefixC_exists _ _ (goodText_starts t h)
  have hlen : 2 < ("- ".data ++ r).length := by
    unfold goodText at h
    exact of_decide_eq_true (Bool.and_eq_true_iff.mp ((Bool.and_eq_true_iff.mp h).1)).2
  have hne : r ≠ [] := by
    intro hre
    subst hre
    simp at hlen
  refine ⟨r, rfl, hne, ?_⟩
  have he := goodText_ends _ h
  rwa [endsNonSpaceB_append _ _ hne] at he

theorem goodTitle_mainSet : goodTitle mainSetTitle := Or.inr (Or.inr (Or.inl rfl))

theorem goodTitle_warmup : goodTitle "Warmup".data := Or.inl rfl

theorem goodTitle_cooldown : goodTitle "Cooldown".data := Or.inr (Or.inl rfl)

theorem goodTitle_repeat (n : Nat) :
    goodTitle ("Main Set ".data ++ natChars n ++ ['x']) :=
  Or.inr (Or.inr (Or.inr ⟨n, rfl⟩))

theorem goodSteps_nil : goodSteps [] := by intro st h; simp at h

theorem goodSteps_append (l : List Step) (st : Step) (hl : goodSteps l)
    (hst : goodText st.text = true) : goodSteps (l ++ [st]) := by
  intro x hx
  rcases List.mem_append.mp hx with h | h
  · exact hl x h
  · rw [List.mem_singleton.mp h]
    exact hst

theorem unflaggedSteps_nil : unflaggedSteps [] := by intro st h; simp at h

theorem unflaggedSteps_append (l : List Step) (st : Step) (hl : unflaggedSteps l)
    (hst : st.cd = false) : unflaggedSteps (l ++ [st]) := by
  intro x hx
  rcases List.mem_append.mp hx with h | h
  · exact hl x h
  · rw [List.mem_singleton.mp h]
    exact hst

theorem flagOnlyCooldown_append (g : WGroup) (st : Step) (hg : flagOnlyCooldown g)
    (hst : st.cd = true → g.title = "Cooldown".data) :
    flagOnlyCooldown ⟨g.title, g.steps ++ [st]⟩ := by
  cases hcd : st.cd with
  | true => exact Or.inl (hst hcd)
  | false =>
    rcases hg with h | h
    · exact Or.inl h
    · exact Or.inr (unflaggedSteps_append _ _ h hcd)

theorem SMInv_mkState (name desc : Chars) : SMInv (mkState name desc) := by
  refine ⟨?_, ⟨goodTitle_mainSet, goodSteps_nil, Or.inr unflaggedSteps_nil⟩, ?_⟩
  · intro g hg
    simp [mkState] at hg
  · intro rg hrg
    simp [mkState] at hrg

theorem SMInv_flush_current (σ : SM) (h : SMInv σ) : SMInv (flush_current σ) := by
  obtain ⟨hA, ⟨hBt, hBs, hBf⟩, hC⟩ := h
  refine ⟨?_, ⟨goodTitle_mainSet, goodSteps_nil, Or.inr unflaggedSteps_nil⟩, hC⟩
  intro g hg
  unfold flush_current at hg
  simp only at hg
  by_cases he : σ.current.steps.isEmpty
  · rw [if_pos he] at hg
    exact hA g hg
  · rw [if_neg he] at hg
    rcases List.mem_append.mp hg with hmem | hmem
    · exact hA g hmem
    · rw [List.mem_singleton.mp hmem]
      refine ⟨⟨hBt, ?_, hBs⟩, hBf⟩
      intro hnil
      exact he (by rw [hnil]; rfl)

theorem SMInv_start_group (t : Chars) (ht : goodTitle t) (σ : SM) (h : SMInv σ) :
    SMInv (start_group t σ) := by
  obtain ⟨hA, hB, hC⟩ := SMInv_flush_current σ h
  exact ⟨hA, ⟨ht, goodSteps_nil, Or.inr unflaggedSteps_nil⟩, hC⟩

theorem SMInv_start_repeat_group (n : Nat) (σ : SM) (h : SMInv σ) :
    SMInv (start_repeat_group n σ) := by
  obtain ⟨hA, hB, hC⟩ := SMInv_flush_current σ h
  refine ⟨hA, hB, ?_⟩
  intro rg hrg
  injection hrg with hrg
  subst hrg
  exact ⟨goodTitle_repeat n, goodSteps_nil, unflaggedSteps_nil⟩

theorem SMInv_close_repeat_group (σ : SM) (h : SMInv σ) :
    SMInv (close_repeat_group σ) := by
  obtain ⟨hA, hB, hC⟩ := h
  refine ⟨?_, hB, ?_⟩
  · intro g hg
    unfold close_repeat_group at hg
    simp only at hg
    cases hrg : σ.repeatGroup with
    | none =>
      rw [hrg] at hg
      exact hA g hg
    | some rg =>
      rw [hrg] at hg
      dsimp only at hg
      by_cases he : rg.steps.isEmpty
      · rw [if_pos he] at hg
        exact hA g hg
      · rw [if_neg he] at hg
        rcases List.mem_append.mp hg with hmem | hmem
        · exact hA g hmem
        · rw [List.mem_singleton.mp hmem]
          obtain ⟨h1, h2, h3⟩ := hC rg hrg
          refine ⟨⟨h1, ?_, h2⟩, Or.inr h3⟩
          intro hnil
          exact he (by rw [hnil]; rfl)
  · intro rg hrg
    simp [close_repeat_group] at hrg

theorem SMInv_add_hills_fallback (σ : SM) (h : SMInv σ) :
    SMInv (add_hills_fallback_if_needed σ) := by
  obtain ⟨hA, ⟨hBt, hBs, hBf⟩, hC⟩ := h
  unfold add_hills_fallback_if_needed
  split
  · refine ⟨hA, ⟨hBt, ?_, ?_⟩, hC⟩
    · exact goodSteps_append _ _ hBs (by decide)
    · exact flagOnlyCooldown_append σ.current _ hBf (by intro hcd; cases hcd)
  · exact ⟨hA, ⟨hBt, hBs, hBf⟩, hC⟩

theorem SMInv_add_step (σ : SM) (st : Step) (ir : Bool) (hinv : SMInv σ)
    (ht : goodText st.text = true)
    (hcd : st.cd = true → ir = false ∧ σ.current.title = "Cooldown".data) :
    SMInv (add_step st ir σ) := by
  obtain ⟨hA, ⟨hBt, hBs, hBf⟩, hC⟩ := hinv
  unfold add_step
  cases hrg : σ.repeatGroup with
  | none =>
    refine ⟨hA, ⟨hBt, goodSteps_append _ _ hBs ht, ?_⟩, ?_⟩
    · exact flagOnlyCooldown_append σ.current st hBf (fun h => (hcd h).2)
    · intro rg h
      simp at h
  | some rg =>
    cases ir with
    | false =>
      refine ⟨hA, ⟨hBt, goodSteps_append _ _ hBs ht, ?_⟩, ?_⟩
      · exact flagOnlyCooldown_append σ.current st hBf (fun h => (hcd h).2)
      · intro rg' h
        dsimp only at h
        injection h with h
        subst h
        exact hC _ hrg
    | true =>
      obtain ⟨hCt, hCs, hCu⟩ := hC rg hrg
      dsimp only
      split
      · -- hills first-step rewrite
        obtain ⟨r, hsplit, hrne, hre⟩ := goodText_split st.text ht
        have hpre : isPrefixC "- ".data st.text = true := goodText_starts st.text ht
        rw [if_pos hpre]
        refine ⟨hA, ⟨hBt, hBs, hBf⟩, ?_⟩
        intro rg' h
        injection h with h
        subst h
        refine ⟨hCt, ?_, ?_⟩
        · refine goodSteps_append _ _ hCs ?_
          show goodText ("- run uphill ".data ++ st.text.drop 2) = true
          rw [hsplit]
          show goodText ("- ".data ++ ("run uphill ".data ++ r)) = true
          refine goodText_dash_append _ ?_
          rw [endsNonSpaceB_append _ _ hrne]
          exact hre
        · exact unflaggedSteps_append _ _ hCu rfl
      · refine ⟨hA, ⟨hBt, hBs, hBf⟩, ?_⟩
        intro rg' h
        injection h with h
        subst h
        refine ⟨hCt, goodSteps_append _ _ hCs ht, ?_⟩
        refine unflaggedSteps_append _ _ hCu ?_
        cases hscd : st.cd with
        | false => rfl
        | true => exact absurd (hcd hscd).1 (by simp)

theorem endsNonSpaceB_append_right (a b : Chars) (hb : endsNonSpaceB b = true) :
    endsNonSpaceB (a ++ b) = true := by
  rw [endsNonSpaceB_append _ _ (endsNonSpaceB_ne_nil b hb)]
  exact hb

theorem endsNonSpaceB_cons_right (c : Char) (r : Chars) (h : endsNonSpaceB r = true) :
    endsNonSpaceB (c :: r) = true := by
  rw [endsNonSpaceB_cons _ _ (endsNonSpaceB_ne_nil r h)]
  exact h

theorem endsNonSpaceB_conversational_zone (n c : Chars) :
    endsNonSpaceB (conversational_zone n c) = true := by
  unfold conversational_zone
  dsimp only
  split
  · decide
  · split
    · decide
    · decide

theorem SMInv_pf_dist (line ll : Chars) (ir : Bool) (σ : SM) (hinv : SMInv σ) :
    SMInv (pf_dist line ll ir σ) := by
  unfold pf_dist
  cases hd : parse_distance line with
  | some dist =>
    cases hr : searchWith matchRangeAt line with
    | some p =>
      obtain ⟨lo, hi⟩ := p
      refine SMInv_add_step σ _ ir hinv ?_ (fun h => Bool.noConfusion h)
      simp only [List.append_assoc]
      apply goodText_dash_append
      repeat' first
        | exact endsNonSpaceB_conversational_zone _ _
        | decide
        | apply endsNonSpaceB_append_right
        | apply endsNonSpaceB_cons_right
    | none =>
      cases hp : searchWith matchPaceAt line with
      | some pace =>
        refine SMInv_add_step σ _ ir hinv ?_ (fun h => Bool.noConfusion h)
        simp only [List.append_assoc]
        apply goodText_dash_append
        repeat' first
          | exact endsNonSpaceB_conversational_zone _ _
          | decide
          | apply endsNonSpaceB_append_right
          | apply endsNonSpaceB_cons_right
      | none =>
        split_ifs
        · refine SMInv_add_step σ _ ir hinv ?_ (fun h => Bool.noConfusion h)
          simp only [List.append_assoc]
          apply goodText_dash_append
          repeat' first
            | exact endsNonSpaceB_conversational_zone _ _
            | decide
            | apply endsNonSpaceB_append_right
            | apply endsNonSpaceB_cons_right
        · refine SMInv_add_step σ _ ir hinv ?_ (fun h => Bool.noConfusion h)
          simp only [List.append_assoc]
          apply goodText_dash_append
          repeat' first
            | exact endsNonSpaceB_conversational_zone _ _
            | decide
            | apply endsNonSpaceB_append_right
            | apply endsNonSpaceB_cons_right
        · refine SMInv_add_step σ _ ir hinv ?_ (fun h => Bool.noConfusion h)
          simp only [List.append_assoc]
          apply goodText_dash_append
          repeat' first
            | exact endsNonSpaceB_conversational_zone _ _
            | decide
            | apply endsNonSpaceB_append_right
            | apply endsNonSpaceB_cons_right
  | none =>
    cases hu : parse_duration line with
    | some dur =>
      refine SMInv_add_step σ _ ir hinv ?_ (fun h => Bool.noConfusion h)
      simp only [List.append_assoc]
      apply goodText_dash_append
      repeat' first
        | exact endsNonSpaceB_conversational_zone _ _
        | decide
        | apply endsNonSpaceB_append_right
        | apply endsNonSpaceB_cons_right
    | none => exact SMInv_add_hills_fallback _ hinv

theorem SMInv_pf_easyq (line ll : Chars) (ir : Bool) (σ : SM) (hinv : SMInv σ) :
    SMInv (pf_easyq line ll ir σ) := by
  unfold pf_easyq
  split
  · cases hd : parse_distance line with
    | some dist =>
      refine SMInv_add_step σ _ ir hinv ?_ (fun h => Bool.noConfusion h)
      simp only [List.append_assoc]
      apply goodText_dash_append
      repeat' first
        | exact endsNonSpaceB_conversational_zone _ _
        | decide
        | apply endsNonSpaceB_append_right
        | apply endsNonSpaceB_cons_right
    | none =>
      refine SMInv_add_step σ _ ir hinv ?_ (fun h => Bool.noConfusion h)
      simp only [List.append_assoc]
      apply goodText_dash_append
      repeat' first
        | exact endsNonSpaceB_conversational_zone _ _
        | decide
        | apply endsNonSpaceB_append_right
        | apply endsNonSpaceB_cons_right
  · exact SMInv_pf_dist line ll ir σ hinv

theorem SMInv_pf_hills (line ll : Chars) (ir : Bool) (σ : SM) (hinv : SMInv σ) :
    SMInv (pf_hills line ll ir σ) := by
  unfold pf_hills
  split
  · refine SMInv_add_step σ _ ir hinv ?_ (fun h => Bool.noConfusion h)
    simp only [List.append_assoc]
    apply goodText_dash_append
    repeat' first
      | exact endsNonSpaceB_conversational_zone _ _
      | decide
      | apply endsNonSpaceB_append_right
      | apply endsNonSpaceB_cons_right
  · split
    · refine SMInv_add_step σ _ ir hinv ?_ (fun h => Bool.noConfusion h)
      simp only [List.append_assoc]
      apply goodText_dash_append
      repeat' first
        | exact endsNonSpaceB_conversational_zone _ _
        | decide
        | apply endsNonSpaceB_append_right
        | apply endsNonSpaceB_cons_right
    · exact SMInv_pf_easyq line ll ir σ hinv

theorem SMInv_pf_main (line ll : Chars) (agc ir : Bool) (σ : SM) (hinv : SMInv σ) :
    SMInv (pf_main line ll agc ir σ) := by
  unfold pf_main
  split
  · exact hinv
  · split
    · refine SMInv_add_step _ _ false (SMInv_start_group _ goodTitle_warmup σ hinv)
        ?_ (fun h => Bool.noConfusion h)
      simp only [List.append_assoc]
      apply goodText_dash_append
      repeat' first
        | exact endsNonSpaceB_conversational_zone _ _
        | decide
        | apply endsNonSpaceB_append_right
        | apply endsNonSpaceB_cons_right
    · split
      · refine SMInv_add_step _ _ false (SMInv_start_group _ goodTitle_cooldown σ hinv)
          ?_ (fun _ => ⟨rfl, rfl⟩)
        simp only [List.append_assoc]
        apply goodText_dash_append
        repeat' first
          | exact endsNonSpaceB_conversational_zone _ _
          | decide
          | apply endsNonSpaceB_append_right
          | apply endsNonSpaceB_cons_right
      · split
        · refine SMInv_add_step σ _ ir hinv ?_ (fun h => Bool.noConfusion h)
          simp only [List.append_assoc]
          apply goodText_dash_append
          repeat' first
            | exact endsNonSpaceB_conversational_zone _ _
            | decide
            | apply endsNonSpaceB_append_right
            | apply endsNonSpaceB_cons_right
        · exact SMInv_pf_hills line ll ir σ hinv

theorem SMInv_process_fragment (frag : Chars) (agc ir : Bool) (σ : SM) (hinv : SMInv σ) :
    SMInv (process_fragment frag agc ir σ) := by
  unfold process_fragment
  dsimp only
  split
  · exact hinv
  · exact SMInv_pf_main _ _ agc ir σ hinv

theorem SMInv_fold_fragments (frags : List Chars) (agc ir : Bool) (σ : SM) (hinv : SMInv σ) :
    SMInv (frags.foldl (fun σ f => process_fragment f agc ir σ) σ) := by
  induction frags generalizing σ with
  | nil => exact hinv
  | cons f t ih =>
    rw [List.foldl_cons]
    exact ih _ (SMInv_process_fragment f agc ir σ hinv)

theorem SMInv_process_line (ln : Chars) (σ : SM) (hinv : SMInv σ) :
    SMInv (process_line ln σ) := by
  unfold process_line
  dsimp only
  split
  · exact SMInv_close_repeat_group σ hinv
  · split
    · exact SMInv_close_repeat_group σ hinv
    · split
      · exact hinv
      · split
        · split
          · exact hinv
          · split
            · exact SMInv_close_repeat_group σ hinv
            · exact hinv
        · split
          · exact SMInv_start_repeat_group _ σ hinv
          · split
            · split <;> exact SMInv_fold_fragments _ _ _ _ hinv
            · split <;> exact SMInv_fold_fragments _ _ _ _ hinv

theorem SMInv_runLines (lines : List Chars) (σ : SM) (hinv : SMInv σ) :
    SMInv (runLines σ lines) := by
  unfold runLines
  induction lines generalizing σ with
  | nil => exact hinv
  | cons l t ih =>
    rw [List.foldl_cons]
    exact ih _ (SMInv_process_line l σ hinv)

theorem SMInv_closeAtEof (σ : SM) (hinv : SMInv σ) : SMInv (closeAtEof σ) := by
  unfold closeAtEof
  split
  · exact SMInv_close_repeat_group σ hinv
  · exact hinv

theorem SMInv_preState (name desc : Chars) : SMInv (preState name desc) :=
  SMInv_flush_current _
    (SMInv_closeAtEof _ (SMInv_runLines _ _ (SMInv_mkState name desc)))

theorem postprocess_id_of_flagOnly (gs : List WGroup)
    (h : ∀ g ∈ gs, flagOnlyCooldown g) : postprocess_trailing_cooldown gs = gs := by
  unfold postprocess_trailing_cooldown
  cases hl : gs.getLast? with
  | none => rfl
  | some g =>
    dsimp only
    have hg := h g (mem_of_getLast?C _ _ hl)
    by_cases ht : g.title = mainSetTitle
    · rw [if_neg (by simp [ht])]
      cases hs : g.steps.getLast? with
      | none => rfl
      | some st =>
        dsimp only
        have hcd : st.cd = false := by
          rcases hg with hcool | hunf
          · exact absurd (ht ▸ hcool) (by decide)
          · exact hunf st (mem_of_getLast?C _ _ hs)
        rw [hcd]
        rfl
    · rw [if_pos (by simpa using ht)]

/-- C9: the identity-flagged deferred-cooldown relocation is a no-op on
every input — the flagged step is always appended to a group already
titled `Cooldown` and titles never change afterwards, so the group
sequence immediately before `_postprocess_trailing_cooldown` equals the
sequence immediately after it for every (title, description). -/
theorem postprocess_trailing_cooldown_noop (workout_name description : String) :
    postprocess_trailing_cooldown (groupsBeforePost workout_name.data description.data) =
      groupsBeforePost workout_name.data description.data :=
  postprocess_id_of_flagOnly _
    (fun g hg => ((SMInv_preState workout_name.data description.data).1 g hg).2)

theorem renderLines_cons_of_ne_nil (g : WGroup) (gs : List WGroup) (h : gs ≠ []) :
    renderLines (g :: gs) = groupLines g ++ [] :: renderLines gs := by
  cases gs with
  | nil => contradiction
  | cons g2 r => simp [renderLines, List.flatMap_cons]

theorem renderLines_ne_nil (gs : List WGroup) (h : gs ≠ []) : renderLines gs ≠ [] := by
  cases gs with
  | nil => contradiction
  | cons g r => simp [renderLines, groupLines]

theorem renderLines_getLast? (gs : List WGroup) (hne : gs ≠ [])
    (hsteps : ∀ g ∈ gs, g.steps ≠ []) :
    ∃ g st, g ∈ gs ∧ st ∈ g.steps ∧ (renderLines gs).getLast? = some st.text := by
  induction gs with
  | nil => contradiction
  | cons g rest ih =>
    cases rest with
    | nil =>
      have hs : g.steps ≠ [] := hsteps g (by simp)
      cases hst : g.steps.getLast? with
      | none => exact absurd (List.getLast?_eq_none_iff.mp hst) hs
      | some st =>
        refine ⟨g, st, by simp, mem_of_getLast?C _ _ hst, ?_⟩
        have hr1 : renderLines [g] = groupLines g := by simp [renderLines]
        rw [hr1]
        unfold groupLines
        have hmap : (g.steps.map Step.text).getLast? = some st.text := by
          rw [List.getLast?_map, hst]
          rfl
        have : g.title :: g.steps.map Step.text = [g.title] ++ g.steps.map Step.text := rfl
        rw [this, List.getLast?_append, hmap]
        rfl
    | cons g2 r2 =>
      obtain ⟨gl, st, h1, h2, h3⟩ :=
        ih (by simp) (fun h hm => hsteps h (List.mem_cons_of_mem g hm))
      refine ⟨gl, st, List.mem_cons_of_mem g h1, h2, ?_⟩
      rw [renderLines_cons_of_ne_nil g (g2 :: r2) (by simp), List.getLast?_append]
      have hrl : renderLines (g2 :: r2) ≠ [] := renderLines_ne_nil _ (by simp)
      have : ([] :: renderLines (g2 :: r2)).getLast? = some st.text := by
        have heq : ([] : Chars) :: renderLines (g2 :: r2) =
            [[]] ++ renderLines (g2 :: r2) := rfl
        rw [heq, List.getLast?_append, h3]
        rfl
      rw [this]
      rfl

theorem joinNL_ends (ls : List Chars) (l : Chars) (hl : ls.getLast? = some l)
    (he : endsNonSpaceB l = true) : endsNonSpaceB (joinNL ls) = true := by
  induction ls with
  | nil => simp at hl
  | cons x t ih =>
    cases t with
    | nil =>
      simp at hl
      subst hl
      exact he
    | cons y r =>
      rw [List.getLast?_cons_cons] at hl
      have hrec := ih hl
      show endsNonSpaceB (x ++ '\n' :: joinNL (y :: r)) = true
      apply endsNonSpaceB_append_right
      apply endsNonSpaceB_cons_right
      exact hrec

theorem renderedGrammar_default : defaultOut ≠ [] ∧ renderedGrammar defaultOut := by
  refine ⟨by decide, [⟨mainSetTitle, [⟨"- 60m Z1-Z2 Pace".data, false⟩]⟩], by decide, ?_, by decide⟩
  intro g hg
  rw [List.mem_singleton.mp hg]
  exact ⟨goodTitle_mainSet, by decide, by decide⟩

theorem renderedGrammar_single (d : Chars) :
    ("Main Set\n- ".data ++ d ++ " ".data ++ single_line_easy_zone) ≠ [] ∧
    renderedGrammar ("Main Set\n- ".data ++ d ++ " ".data ++ single_line_easy_zone) := by
  constructor
  · apply List.append_ne_nil_of_left_ne_nil
    apply List.append_ne_nil_of_left_ne_nil
    apply List.append_ne_nil_of_left_ne_nil
    decide
  · refine ⟨[⟨mainSetTitle, [⟨"- ".data ++ d ++ " ".data ++ single_line_easy_zone, false⟩]⟩],
      List.cons_ne_nil _ _, ?_, ?_⟩
    · intro g hg
      rw [List.mem_singleton.mp hg]
      refine ⟨goodTitle_mainSet, List.cons_ne_nil _ _, ?_⟩
      intro st hst
      rw [List.mem_singleton.mp hst]
      show isPrefixC "- ".data ("- ".data ++ d ++ " ".data ++ single_line_easy_zone) = true
      rw [List.append_assoc, List.append_assoc]
      exact isPrefixC_self_append _ _
    · show "Main Set\n- ".data ++ d ++ " ".data ++ single_line_easy_zone =
        joinNL (renderLines [⟨mainSetTitle,
          [⟨"- ".data ++ d ++ " ".data ++ single_line_easy_zone, false⟩]⟩])
      simp only [renderLines, groupLines, List.map, List.flatMap_nil, List.append_nil, joinNL,
        List.append_assoc]
      rfl

/-- C5: for every (title, description) the rendered output is non-empty
and matches the group grammar — one or more groups, each a recognised
title line (`Warmup`, `Cooldown`, `Main Set`, or `Main Set <N>x`)
immediately followed by one or more `- `-prefixed step lines, exactly one
blank line between consecutive groups, and no empty group. -/
theorem output_grammar (workout_name description : String) :
    (translate_workout_to_intervals_text workout_name description).1.data ≠ [] ∧
    renderedGrammar (translate_workout_to_intervals_text workout_name description).1.data := by
  have hwrap : (translate_workout_to_intervals_text workout_name description).1.data =
      (translateCore workout_name.data description.data).1 := rfl
  rw [hwrap]
  unfold translateCore
  cases hsp : pySplitlines description.data with
  | nil => exact renderedGrammar_default
  | cons first_line body_lines =>
    dsimp only
    by_cases hb : body_lines.isEmpty
    · rw [if_pos hb]
      cases hd : parse_distance first_line with
      | some d =>
        split_ifs
        · exact renderedGrammar_single d
        · exact renderedGrammar_single d
        · exact renderedGrammar_default
      | none => exact renderedGrammar_default
    · rw [if_neg hb]
      have hinv := SMInv_preState workout_name.data description.data
      have hid : finalGroups workout_name.data description.data =
          groupsBeforePost workout_name.data description.data :=
        postprocess_id_of_flagOnly _ (fun g hg => (hinv.1 g hg).2)
      by_cases hout : (renderLines (finalGroups workout_name.data description.data)).isEmpty
      · rw [if_pos hout]
        exact renderedGrammar_default
      · rw [if_neg hout]
        have hgsne : finalGroups workout_name.data description.data ≠ [] := by
          intro h0
          rw [h0] at hout
          exact hout rfl
        have hprops : ∀ g ∈ finalGroups workout_name.data description.data,
            goodWGroup g ∧ flagOnlyCooldown g := by
          rw [hid]
          exact hinv.1
        have hsteps : ∀ g ∈ finalGroups workout_name.data description.data,
            g.steps ≠ [] := fun g hg => ((hprops g hg).1).2.1
        obtain ⟨g, st, hgmem, hstmem, hlast⟩ :=
          renderLines_getLast? _ hgsne hsteps
        have hstgood : goodText st.text = true := ((hprops g hgmem).1).2.2 st hstmem
        have hjoin : endsNonSpaceB
            (joinNL (renderLines (finalGroups workout_name.data description.data))) = true :=
          joinNL_ends _ st.text hlast (goodText_ends _ hstgood)
        have hr : pyRstrip
            (joinNL (renderLines (finalGroups workout_name.data description.data))) =
            joinNL (renderLines (finalGroups workout_name.data description.data)) :=
          pyRstrip_eq_self _ hjoin
        constructor
        · show pyRstrip (joinNL (renderLines (finalGroups workout_name.data
            description.data))) ≠ []
          rw [hr]
          exact endsNonSpaceB_ne_nil _ hjoin
        · refine ⟨finalGroups workout_name.data description.data, hgsne, ?_, ?_⟩
          · intro g' hg'
            obtain ⟨⟨ht, hs, hgs⟩, _⟩ := hprops g' hg'
            exact ⟨ht, hs, fun st' hst' => goodText_starts _ (hgs st' hst')⟩
          · show pyRstrip (joinNL (renderLines (finalGroups workout_name.data
              description.data))) = _
            rw [hr]
